import Mathlib

/-!
Verification of the transcoder-win quality-search pipeline.

The development shallowly embeds the core of the repository:
* the constants of `consts.ts`,
* the binary quality search `findBestQuality` of `sample-videos.ts`
  (the complete variant, with per-iteration midpoint recomputation),
* the sampler `Handbrake.sample` and the sample-window construction of
  `utils/media-file.ts` / `utils/handbrake.ts`,
* the encoder strategy chain `runCommand`, the final `transcode`, and
  the batch orchestrator `transcodeVideos` with its cleanup/rename pass.

Numbers are modelled as exact rationals; external effects (the sampler's
probe results, per-strategy encoder exit codes, per-file metadata) are
supplied as explicit oracle functions so that every definition is
executable.
-/

namespace TranscoderWin

/-! ### Constants (consts.ts) -/

def DEFAULT_Q : ℚ := 25

def BITRATE_RANGES_Anime : ℚ × ℚ := (1, 5/2)

def BITRATE_RANGES_Shows : ℚ × ℚ := (2, 4)

def BITRATE_RANGES_Movies : ℚ × ℚ := (3, 6)

def SKIP_TRANSCODE_CODECS : List (List Char) := [String.toList "av1"]

def ALLOW_TRANSCODE : List (List Char) :=
  [String.toList ".mp4", String.toList ".mkv", String.toList ".avi",
   String.toList ".mov", String.toList ".flv", String.toList ".webm"]

/-- The processed-marker suffix appended to output file base names. -/
def HBPROCESSED : List Char := String.toList "_HBPROCESSED"

/-! ### Rounding helpers (utils.ts `round`, JS `Math.round`)

JS `Math.round` rounds half toward positive infinity, which is exactly
Mathlib's `round` on `ℚ` (`round x = ⌊x + 1/2⌋`). -/

/-- JS `Math.round`: round half toward positive infinity,
`⌊x + 1/2⌋`, written through `Rat.floor` so that it evaluates by `decide`. -/
def jsRound (x : ℚ) : ℤ := Rat.floor (x + 1/2)

theorem jsRound_eq_round (x : ℚ) : jsRound x = round x := by
  rw [round_eq]; rfl

/-- Evaluation rule for `jsRound` at concrete rationals. -/
theorem jsRound_eq (x : ℚ) (n : ℤ) (h1 : (n : ℚ) ≤ x + 1/2)
    (h2 : x + 1/2 < (n : ℚ) + 1) : jsRound x = n := by
  rw [jsRound_eq_round, round_eq]
  exact Int.floor_eq_iff.mpr ⟨h1, h2⟩

/-- The 2-decimal rounding of utils.ts: `Math.round(x * 100) / 100`. -/
def round2 (x : ℚ) : ℚ := ((jsRound (x * 100) : ℤ) : ℚ) / 100

/-- The 1-decimal rounding used for `mid`: `Math.round(x * 10) / 10`. -/
def roundTenth (x : ℚ) : ℚ := ((jsRound (x * 10) : ℤ) : ℚ) / 10

/-! ### Data model (utils/media-file.ts) -/

/-- Metadata of a media file as produced by `MediaFile.getDetails`. -/
structure Metadata where
  colorProfile : List Char
  codec : List Char
  bitrate : ℚ
  length : ℚ
  size : ℚ
deriving DecidableEq, Repr

/-- The aggregate returned by `Handbrake.sample`. -/
structure Sample where
  avgBitrate : ℚ
  estimatedSize : ℚ
deriving DecidableEq, Repr

/-! ### Category → bitrate band (sample-videos.ts `getBitrateRange`) -/

/-- JS `String.prototype.includes`, on character lists. -/
def containsSeq (pat : List Char) : List Char → Bool
  | [] => pat.isEmpty
  | c :: rest => pat.isPrefixOf (c :: rest) || containsSeq pat rest

def getBitrateRange (category : List Char) : ℚ × ℚ :=
  if containsSeq (String.toList "anime") category then BITRATE_RANGES_Anime
  else if containsSeq (String.toList "shows") category then BITRATE_RANGES_Shows
  else BITRATE_RANGES_Movies

/-! ### Quality search state (sample-videos.ts `findBestQuality`) -/

structure SearchState where
  low : ℚ
  high : ℚ
  mid : ℚ
  best : ℚ
  bestBitrate : ℚ
  attempts : ℕ
deriving DecidableEq, Repr

/-- Initial state: `low = 7`, `high = 40`,
`mid = Math.round(((low + high) / 2) * 10) / 10`, `best = DEFAULT_Q`,
`bestBitrate = 0`, `attempts = 0`. -/
def initState : SearchState :=
  { low := 7, high := 40, mid := roundTenth ((7 + 40) / 2),
    best := DEFAULT_Q, bestBitrate := 0, attempts := 0 }

/-- The midpoint recomputation `mid = Math.round(((low + high) / 2) * 10) / 10`, run at the end
of each loop iteration. -/
def reMid (s : SearchState) : SearchState :=
  { s with mid := roundTenth ((s.low + s.high) / 2) }

/-- One iteration of the `while` body of `findBestQuality`: `attempts++`,
then either the caught sampling error (`none`: bounds, `mid`, `best`
untouched) or the first-match constraint cascade followed by the midpoint
recomputation. -/
def stepBody (m : Metadata) (range : ℚ × ℚ) (s : SearchState)
    (outcome : Option Sample) : SearchState :=
  let a := s.attempts + 1
  match outcome with
  | none => { s with attempts := a }
  | some d =>
    if d.estimatedSize > m.size * (95/100) then
      reMid { s with low := s.mid + 1, attempts := a }
    else if d.avgBitrate > m.bitrate * (95/100) then
      reMid { s with low := s.mid + 1, attempts := a }
    else if d.avgBitrate > range.2 then
      reMid { s with low := s.mid + 1, attempts := a }
    else if d.avgBitrate < range.1 then
      if d.avgBitrate > s.bestBitrate then
        reMid { s with high := s.mid - 1, attempts := a,
                       bestBitrate := d.avgBitrate, best := s.mid }
      else
        reMid { s with high := s.mid - 1, attempts := a }
    else
      if d.avgBitrate > s.bestBitrate then
        reMid { s with high := s.mid - 1, attempts := a,
                       bestBitrate := d.avgBitrate, best := s.mid }
      else
        reMid { s with high := s.mid - 1, attempts := a }

/-- The loop guard:
`low < high && attempts < 6 && Math.abs(high - low) >= 0.3`. -/
def loopCond (s : SearchState) : Prop :=
  s.low < s.high ∧ s.attempts < 6 ∧ 3/10 ≤ |s.high - s.low|

instance (s : SearchState) : Decidable (loopCond s) := by
  unfold loopCond; infer_instance

/-- The search loop, fuel-indexed.  The sampling outcome of the iteration
with attempt counter `n` is `oracle n` (`none` models a raised sampling
error, caught by the surrounding `tryCatch`). -/
def searchLoop (m : Metadata) (range : ℚ × ℚ) (oracle : ℕ → Option Sample) :
    ℕ → SearchState → SearchState
  | 0, s => s
  | fuel + 1, s =>
    if loopCond s then
      searchLoop m range oracle fuel (stepBody m range s (oracle s.attempts))
    else s

/-- Result of a call to `findBestQuality`, together with how many times the
encoder wrapper was initialized (`Handbrake.init`) and how many sampling
passes (`handbrake.sample`) were launched. -/
structure QualityResult where
  q : ℚ
  initCalls : ℕ
  sampleCalls : ℕ
deriving DecidableEq, Repr

/-- Core of `findBestQuality` with the bitrate range passed explicitly
(the source computes it by `getBitrateRange(category)`), and a fuel bound
on the loop.  Guards: `if (!metadata) return DEFAULT_Q;` and
`if (!bitrateRange[0] || !bitrateRange[1]) return DEFAULT_Q;` — a falsy
bound is a zero bound in the rational model. -/
def findBestQualityFuelR (md : Option Metadata) (range : ℚ × ℚ)
    (oracle : ℕ → Option Sample) (fuel : ℕ) : QualityResult :=
  match md with
  | none => ⟨DEFAULT_Q, 0, 0⟩
  | some m =>
    if range.1 = 0 ∨ range.2 = 0 then ⟨DEFAULT_Q, 0, 0⟩
    else
      let fin := searchLoop m range oracle fuel initState
      ⟨fin.best, 1, fin.attempts⟩

/-- The search with explicit range: the loop guard `attempts < 6`
caps iterations, so fuel 6 is exact (proved in `findBestQuality_bounded`). -/
def findBestQualityR (md : Option Metadata) (range : ℚ × ℚ)
    (oracle : ℕ → Option Sample) : QualityResult :=
  findBestQualityFuelR md range oracle 6

/-- The full `findBestQuality(video, category)` of sample-videos.ts, as the returned
quality value. -/
def findBestQuality (md : Option Metadata) (category : List Char)
    (oracle : ℕ → Option Sample) : ℚ :=
  (findBestQualityR md (getBitrateRange category) oracle).q

theorem initState_mid : initState.mid = 47/2 := by
  show ((jsRound ((7 + 40) / 2 * 10) : ℤ) : ℚ) / 10 = 47/2
  rw [jsRound_eq _ 235 (by norm_num) (by norm_num)]
  norm_num

example : findBestQuality none (String.toList "shows") (fun _ => none)
    = DEFAULT_Q := rfl

example : getBitrateRange (String.toList "anime-tv") = (1, 5/2) := by
  norm_num [getBitrateRange, containsSeq, BITRATE_RANGES_Anime, String.toList]

/-! ### C7 — a caught sampling error is a state no-op except for `attempts` -/

/-- C7: when the sampler raises inside a search iteration (outcome `none`),
the error is caught and the iteration leaves `low`, `high`, `mid`, `best`
and `bestBitrate` exactly as they were, while the attempt counter is still
advanced by one. -/
theorem sampling_error_is_noop (m : Metadata) (range : ℚ × ℚ)
    (s : SearchState) :
    stepBody m range s none = { s with attempts := s.attempts + 1 } := rfl

/-! ### C1 — first-match constraint order and strict bound movement -/

/-- C1: on a successful sample, the result is classified by the first
matching rule in the fixed order (1) `estimatedSize > 0.95 * sourceSize`,
(2) `avgBitrate > 0.95 * sourceBitrate`, (3) `avgBitrate > bandMax` —
each of which sets `low` to `mid + 1`, strictly above the old `mid`,
leaving `high` unchanged; otherwise (4) `avgBitrate < bandMin` or
(5) feasible — each of which sets `high` to `mid - 1`, strictly below the
old `mid`, leaving `low` unchanged. -/
theorem constraint_order (m : Metadata) (range : ℚ × ℚ) (s : SearchState)
    (d : Sample) :
    (d.estimatedSize > m.size * (95/100) →
      (stepBody m range s (some d)).low = s.mid + 1 ∧
      (stepBody m range s (some d)).high = s.high ∧
      s.mid < (stepBody m range s (some d)).low) ∧
    (¬(d.estimatedSize > m.size * (95/100)) →
      d.avgBitrate > m.bitrate * (95/100) →
      (stepBody m range s (some d)).low = s.mid + 1 ∧
      (stepBody m range s (some d)).high = s.high ∧
      s.mid < (stepBody m range s (some d)).low) ∧
    (¬(d.estimatedSize > m.size * (95/100)) →
      ¬(d.avgBitrate > m.bitrate * (95/100)) →
      d.avgBitrate > range.2 →
      (stepBody m range s (some d)).low = s.mid + 1 ∧
      (stepBody m range s (some d)).high = s.high ∧
      s.mid < (stepBody m range s (some d)).low) ∧
    (¬(d.estimatedSize > m.size * (95/100)) →
      ¬(d.avgBitrate > m.bitrate * (95/100)) →
      ¬(d.avgBitrate > range.2) →
      d.avgBitrate < range.1 →
      (stepBody m range s (some d)).high = s.mid - 1 ∧
      (stepBody m range s (some d)).low = s.low ∧
      (stepBody m range s (some d)).high < s.mid) ∧
    (¬(d.estimatedSize > m.size * (95/100)) →
      ¬(d.avgBitrate > m.bitrate * (95/100)) →
      ¬(d.avgBitrate > range.2) →
      ¬(d.avgBitrate < range.1) →
      (stepBody m range s (some d)).high = s.mid - 1 ∧
      (stepBody m range s (some d)).low = s.low ∧
      (stepBody m range s (some d)).high < s.mid) := by
  refine ⟨fun h1 => ?_, fun h1 h2 => ?_, fun h1 h2 h3 => ?_,
    fun h1 h2 h3 h4 => ?_, fun h1 h2 h3 h4 => ?_⟩ <;>
    simp only [stepBody, reMid] <;>
    split_ifs <;>
    first
      | (exact absurd ‹_› ‹_›)
      | (exact ⟨rfl, rfl, show s.mid < s.mid + 1 by linarith⟩)
      | (exact ⟨rfl, rfl, show s.mid - 1 < s.mid by linarith⟩)

/-- Witness for C1 at a concrete iteration: source size 1000 MB, sample
estimated size 960 MB > 950 MB, so rule (1) fires and the new `low`
strictly exceeds the old `mid`. -/
theorem constraint_order_witness :
    initState.mid <
      (stepBody ⟨[], [], 20/3, 1200, 1000⟩ (2, 4) initState
        (some ⟨9/2, 960⟩)).low ∧
    (stepBody ⟨[], [], 20/3, 1200, 1000⟩ (2, 4) initState
        (some ⟨9/2, 960⟩)).high = initState.high := by
  have h := constraint_order ⟨[], [], 20/3, 1200, 1000⟩ (2, 4) initState
    ⟨9/2, 960⟩
  have h1 := h.1 (by norm_num)
  exact ⟨h1.2.2, h1.2.1⟩

/-! ### C2 — below-band classification retains a fallback best -/

/-- C2: in a search iteration where rules (1)–(3) do not fire and the
sample's average bitrate is strictly below the band minimum, the upper
bound is lowered past `mid` (`high = mid - 1 < mid`, `low` unchanged), and
iff the candidate's bitrate strictly exceeds the best bitrate recorded so
far, the candidate quality `mid` is recorded as the current best. -/
theorem below_band_fallback (m : Metadata) (range : ℚ × ℚ)
    (s : SearchState) (d : Sample)
    (h1 : ¬(d.estimatedSize > m.size * (95/100)))
    (h2 : ¬(d.avgBitrate > m.bitrate * (95/100)))
    (h3 : ¬(d.avgBitrate > range.2))
    (h4 : d.avgBitrate < range.1) :
    (stepBody m range s (some d)).high = s.mid - 1 ∧
    (stepBody m range s (some d)).high < s.mid ∧
    (stepBody m range s (some d)).low = s.low ∧
    (d.avgBitrate > s.bestBitrate →
      (stepBody m range s (some d)).best = s.mid ∧
      (stepBody m range s (some d)).bestBitrate = d.avgBitrate) ∧
    (¬(d.avgBitrate > s.bestBitrate) →
      (stepBody m range s (some d)).best = s.best ∧
      (stepBody m range s (some d)).bestBitrate = s.bestBitrate) := by
  simp only [stepBody, reMid]
  split_ifs with g1
  · exact ⟨rfl, show s.mid - 1 < s.mid by linarith, rfl,
      fun hb => ⟨rfl, rfl⟩, fun hb => absurd g1 hb⟩
  · exact ⟨rfl, show s.mid - 1 < s.mid by linarith, rfl,
      fun hb => absurd hb g1, fun hb => ⟨rfl, rfl⟩⟩

/-- Witness for C2 at a concrete iteration: band `[2, 4]`, sample bitrate
1.5 Mb/s below the band, strictly above the recorded best bitrate 0, so the
candidate `mid` is recorded as best and `high` drops below `mid`. -/
theorem below_band_fallback_witness :
    (stepBody ⟨[], [], 20/3, 1200, 1000⟩ (2, 4) initState
      (some ⟨3/2, 225⟩)).best = initState.mid ∧
    (stepBody ⟨[], [], 20/3, 1200, 1000⟩ (2, 4) initState
      (some ⟨3/2, 225⟩)).high < initState.mid := by
  have h := below_band_fallback ⟨[], [], 20/3, 1200, 1000⟩ (2, 4) initState
    ⟨3/2, 225⟩ (by norm_num) (by norm_num [initState]) (by norm_num)
    (by norm_num)
  exact ⟨(h.2.2.2.1 (by norm_num [initState])).1, h.2.1⟩

/-! ### C3 — `mid` is always the rounded midpoint of the current bounds -/

/-- C3: the quality sampled in each iteration is the midpoint of the
current `[low, high]` bounds rounded to the nearest 0.1: the property
holds in the initial state and is preserved by every iteration (after a
bound update the midpoint is recomputed before the next sample; after a
caught sampling error both the bounds and `mid` are unchanged). -/
theorem mid_is_current_midpoint :
    initState.mid = roundTenth ((initState.low + initState.high) / 2) ∧
    ∀ (m : Metadata) (range : ℚ × ℚ) (s : SearchState) (o : Option Sample),
      s.mid = roundTenth ((s.low + s.high) / 2) →
      (stepBody m range s o).mid =
        roundTenth (((stepBody m range s o).low +
          (stepBody m range s o).high) / 2) := by
  refine ⟨rfl, fun m range s o hs => ?_⟩
  match o with
  | none => exact hs
  | some d =>
    simp only [stepBody, reMid]
    split_ifs <;> rfl

/-- Witness for C3: preservation applied to the initial state and a
feasible sample outcome. -/
theorem mid_is_current_midpoint_witness :
    (stepBody ⟨[], [], 20/3, 1200, 1000⟩ (2, 4) initState
        (some ⟨7/2, 525⟩)).mid =
      roundTenth (((stepBody ⟨[], [], 20/3, 1200, 1000⟩ (2, 4) initState
        (some ⟨7/2, 525⟩)).low +
        (stepBody ⟨[], [], 20/3, 1200, 1000⟩ (2, 4) initState
        (some ⟨7/2, 525⟩)).high) / 2) :=
  mid_is_current_midpoint.2 ⟨[], [], 20/3, 1200, 1000⟩ (2, 4) initState
    (some ⟨7/2, 525⟩) mid_is_current_midpoint.1

/-! ### C4 — bounded termination and range of the returned quality -/

theorem roundTenth_close (x : ℚ) : |roundTenth x - x| ≤ 1/20 := by
  have h : |((round (x * 10) : ℤ) : ℚ) - x * 10| ≤ 1/2 := by
    rw [abs_sub_comm]; exact abs_sub_round (x * 10)
  have h10 : roundTenth x - x = (((round (x * 10) : ℤ) : ℚ) - x * 10) / 10 := by
    unfold roundTenth; rw [jsRound_eq_round]; ring
  rw [h10, abs_div, abs_of_pos (show (0:ℚ) < 10 by norm_num)]
  linarith

/-- Under the loop guard, the rounded midpoint stays at least 0.1 inside
the current bounds. -/
theorem mid_between {low high : ℚ} (hlt : low < high)
    (hgap : 3/10 ≤ |high - low|) :
    low + 1/10 ≤ roundTenth ((low + high) / 2) ∧
      roundTenth ((low + high) / 2) ≤ high - 1/10 := by
  rw [abs_of_pos (by linarith)] at hgap
  have h := abs_le.mp (roundTenth_close ((low + high) / 2))
  exact ⟨by linarith [h.1], by linarith [h.2]⟩

/-- Search-loop invariant: bounds inside the initial window on the side
that matters, the recorded best inside `[7, 40]`, and `mid` equal to the
rounded midpoint of the current bounds. -/
def SearchInv (s : SearchState) : Prop :=
  7 ≤ s.low ∧ s.high ≤ 40 ∧ 7 ≤ s.best ∧ s.best ≤ 40 ∧
    s.mid = roundTenth ((s.low + s.high) / 2)

theorem stepBody_inv (m : Metadata) (range : ℚ × ℚ) (s : SearchState)
    (o : Option Sample) (hc : loopCond s) (h : SearchInv s) :
    SearchInv (stepBody m range s o) := by
  obtain ⟨hl, hh, hb1, hb2, hm⟩ := h
  obtain ⟨hlt, -, hgap⟩ := hc
  have hmid := mid_between hlt hgap
  rw [← hm] at hmid
  match o with
  | none => exact ⟨hl, hh, hb1, hb2, hm⟩
  | some d =>
    simp only [stepBody, reMid, SearchInv]
    split_ifs <;>
      exact ⟨by dsimp only; linarith [hmid.1], by dsimp only; linarith [hmid.2],
        by dsimp only; linarith [hmid.1], by dsimp only; linarith [hmid.2], rfl⟩

theorem searchLoop_inv (m : Metadata) (range : ℚ × ℚ)
    (oracle : ℕ → Option Sample) :
    ∀ (fuel : ℕ) (s : SearchState), SearchInv s →
      SearchInv (searchLoop m range oracle fuel s)
  | 0, s, h => h
  | fuel + 1, s, h => by
    simp only [searchLoop]
    split_ifs with hc
    · exact searchLoop_inv m range oracle fuel _ (stepBody_inv m range s _ hc h)
    · exact h

theorem stepBody_attempts (m : Metadata) (range : ℚ × ℚ) (s : SearchState)
    (o : Option Sample) : (stepBody m range s o).attempts = s.attempts + 1 := by
  match o with
  | none => rfl
  | some d => simp only [stepBody, reMid]; split_ifs <;> rfl

theorem searchLoop_attempts_le (m : Metadata) (range : ℚ × ℚ)
    (oracle : ℕ → Option Sample) :
    ∀ (fuel : ℕ) (s : SearchState), s.attempts ≤ 6 →
      (searchLoop m range oracle fuel s).attempts ≤ 6
  | 0, _, h => h
  | fuel + 1, s, h => by
    simp only [searchLoop]
    split_ifs with hc
    · exact searchLoop_attempts_le m range oracle fuel _
        (by rw [stepBody_attempts]; have := hc.2.1; omega)
    · exact h

theorem searchLoop_stop (m : Metadata) (range : ℚ × ℚ)
    (oracle : ℕ → Option Sample) :
    ∀ (fuel : ℕ) (s : SearchState), 6 ≤ s.attempts →
      searchLoop m range oracle fuel s = s
  | 0, _, _ => rfl
  | fuel + 1, s, h => by
    simp only [searchLoop]
    rw [if_neg]
    intro hc
    exact absurd hc.2.1 (by omega)

/-- The guard `attempts < 6` makes every fuel bound of at least 6 exact:
the loop runs at most 6 iterations. -/
theorem searchLoop_fuel (m : Metadata) (range : ℚ × ℚ)
    (oracle : ℕ → Option Sample) :
    ∀ (f1 f2 : ℕ) (s : SearchState), 6 ≤ s.attempts + f1 →
      6 ≤ s.attempts + f2 →
      searchLoop m range oracle f1 s = searchLoop m range oracle f2 s := by
  intro f1
  induction f1 with
  | zero =>
    intro f2 s h1 _
    exact (searchLoop_stop m range oracle f2 s (by omega)).symm
  | succ k ih =>
    intro f2 s h1 h2
    cases f2 with
    | zero => exact searchLoop_stop m range oracle (k + 1) s (by omega)
    | succ j =>
      simp only [searchLoop]
      split_ifs with hc
      · exact ih j _ (by rw [stepBody_attempts]; omega)
          (by rw [stepBody_attempts]; omega)
      · rfl

/-- C4: for every source metadata, bitrate range and sampling behaviour,
`findBestQuality` terminates after at most the attempt cap of 6 iterations
(any fuel of at least 6 computes the same result, and at most 6 sampling
passes are launched), and the returned value lies within the initial
`[7, 40]` quality window or equals the configured `DEFAULT_Q`. -/
theorem findBestQuality_bounded (md : Option Metadata) (range : ℚ × ℚ)
    (oracle : ℕ → Option Sample) (fuel : ℕ) (hfuel : 6 ≤ fuel) :
    findBestQualityFuelR md range oracle fuel
        = findBestQualityR md range oracle ∧
    (findBestQualityR md range oracle).sampleCalls ≤ 6 ∧
    ((7 ≤ (findBestQualityR md range oracle).q ∧
        (findBestQualityR md range oracle).q ≤ 40) ∨
      (findBestQualityR md range oracle).q = DEFAULT_Q) := by
  match md with
  | none => exact ⟨rfl, by norm_num [findBestQualityR, findBestQualityFuelR],
      Or.inr rfl⟩
  | some m =>
    simp only [findBestQualityR, findBestQualityFuelR]
    split_ifs with hz
    · exact ⟨rfl, by norm_num, Or.inr rfl⟩
    · have hinv : SearchInv initState :=
        ⟨by norm_num [initState], by norm_num [initState],
         by norm_num [initState, DEFAULT_Q], by norm_num [initState, DEFAULT_Q],
         rfl⟩
      have hfin := searchLoop_inv m range oracle 6 initState hinv
      refine ⟨?_, ?_, Or.inl ⟨hfin.2.2.1, hfin.2.2.2.1⟩⟩
      · rw [searchLoop_fuel m range oracle fuel 6 initState
          (show 6 ≤ 0 + fuel by omega) (show 6 ≤ 0 + 6 by norm_num)]
      · exact searchLoop_attempts_le m range oracle 6 initState
          (show 0 ≤ 6 by norm_num)

/-- Witness for C4: with metadata present, band `[2, 4]` and a sampler that
always fails, the search still terminates with the default quality and at
most 6 sampling attempts. -/
theorem findBestQuality_bounded_witness :
    findBestQualityFuelR (some ⟨[], [], 20/3, 1200, 1000⟩) (2, 4)
        (fun _ => none) 6
      = findBestQualityR (some ⟨[], [], 20/3, 1200, 1000⟩) (2, 4)
        (fun _ => none) ∧
    (findBestQualityR (some ⟨[], [], 20/3, 1200, 1000⟩) (2, 4)
        (fun _ => none)).sampleCalls ≤ 6 ∧
    ((7 ≤ (findBestQualityR (some ⟨[], [], 20/3, 1200, 1000⟩) (2, 4)
        (fun _ => none)).q ∧
      (findBestQualityR (some ⟨[], [], 20/3, 1200, 1000⟩) (2, 4)
        (fun _ => none)).q ≤ 40) ∨
      (findBestQualityR (some ⟨[], [], 20/3, 1200, 1000⟩) (2, 4)
        (fun _ => none)).q = DEFAULT_Q) :=
  findBestQuality_bounded (some ⟨[], [], 20/3, 1200, 1000⟩) (2, 4)
    (fun _ => none) 6 (by norm_num)

/-! ### C10 — missing metadata / degenerate band short-circuit -/

/-- C10: `findBestQuality` returns the configured default quality
immediately — without initializing the encoder wrapper and without
launching any sampling pass — whenever the source metadata cannot be
obtained (`none`) or the selected bitrate range has a falsy (zero) bound. -/
theorem guard_returns_default (md : Option Metadata) (range : ℚ × ℚ)
    (oracle : ℕ → Option Sample)
    (h : md = none ∨ range.1 = 0 ∨ range.2 = 0) :
    findBestQualityR md range oracle
      = { q := DEFAULT_Q, initCalls := 0, sampleCalls := 0 } := by
  match md with
  | none => rfl
  | some m =>
    simp only [findBestQualityR, findBestQualityFuelR]
    rw [if_pos]
    rcases h with h | h
    · exact absurd h (by simp)
    · exact h

/-- Witness for C10: unobtainable metadata yields the default with no
encoder-wrapper initialization and no sampling pass. -/
theorem guard_returns_default_witness :
    findBestQualityR none (2, 4) (fun _ => some ⟨7/2, 525⟩)
      = { q := DEFAULT_Q, initCalls := 0, sampleCalls := 0 } :=
  guard_returns_default none (2, 4) (fun _ => some ⟨7/2, 525⟩) (Or.inl rfl)

/-! ### Sampler (utils/media-file.ts, `Handbrake.sample`) -/

/-- Arguments of `handbrake.sample`. -/
structure SampleOptions where
  quality : ℚ
  samples : ℤ
  sampleLength : ℚ
deriving DecidableEq, Repr

/-- Size/bitrate probed from one produced sample file
(`time.output.getDetails()`); `none` models a failed probe. -/
structure ProbeStats where
  bitrate : ℚ
  size : ℚ
deriving DecidableEq, Repr

theorem ratFloor_eq (q : ℚ) : Rat.floor q = ⌊q⌋ := rfl

/-- Source: `let sampleLength = options.sampleLength; if (options.sampleLength *
options.samples > this.metadata.length) sampleLength =
Math.floor(this.metadata.length / options.samples);` -/
def effectiveSampleLength (o : SampleOptions) (len : ℚ) : ℚ :=
  if o.sampleLength * (o.samples : ℚ) > len then
    ((Rat.floor (len / (o.samples : ℚ)) : ℤ) : ℚ)
  else o.sampleLength

/-- Source: `const timeFrames = Math.floor(this.metadata.length / options.samples)`. -/
def timeFrames (len : ℚ) (samples : ℤ) : ℤ :=
  Rat.floor (len / (samples : ℚ))

/-- Start offset of the `i`-th sample: `const start = i * timeFrames;`
pushed as `start == 0 ? 1 : start`. -/
def sampleStart (tf : ℤ) (i : ℕ) : ℚ :=
  if (i : ℚ) * (tf : ℚ) = 0 then 1 else (i : ℚ) * (tf : ℚ)

/-- The `timeTable` of `(start, duration)` probe windows. -/
def sampleTimeTable (o : SampleOptions) (len : ℚ) : List (ℚ × ℚ) :=
  (List.range o.samples.toNat).map
    (fun i => (sampleStart (timeFrames len o.samples) i,
               effectiveSampleLength o len))

/-- The accumulation loop of `Handbrake.sample`: for each sample index,
a probe with strictly positive bitrate adds to `totalBitrate`,
`totalSize` and `successfulSamples`; anything else is excluded. -/
def sampleLoop (probes : ℕ → Option ProbeStats) :
    List ℕ → ℚ × ℚ × ℕ → ℚ × ℚ × ℕ
  | [], acc => acc
  | i :: rest, (tb, ts, cnt) =>
    match probes i with
    | some st =>
      if 0 < st.bitrate then
        sampleLoop probes rest (tb + st.bitrate, ts + st.size, cnt + 1)
      else sampleLoop probes rest (tb, ts, cnt)
    | none => sampleLoop probes rest (tb, ts, cnt)

namespace Handbrake

/-- The sampler `Handbrake.sample`: validates options, builds the time table, runs all
samples, and either raises (`none`) when no sample produced valid
statistics or returns the rounded average bitrate and the estimated full
size `round((avgBitrate * length) / 8)`. -/
def sample (meta : Metadata) (o : SampleOptions)
    (probes : ℕ → Option ProbeStats) : Option Sample :=
  if o.samples ≤ 0 ∨ o.sampleLength ≤ 0 ∨ o.quality ≤ 0 ∨ 51 < o.quality then
    none
  else
    let _timeTable := sampleTimeTable o meta.length
    let acc := sampleLoop probes (List.range o.samples.toNat) (0, 0, 0)
    if acc.2.2 = 0 then none
    else
      let avg := round2 (acc.1 / (acc.2.2 : ℚ))
      some { avgBitrate := avg, estimatedSize := round2 (avg * meta.length / 8) }

end Handbrake

/-! ### C5 — `sample` raises iff no sample produced a valid bitrate -/

/-- The bitrates of exactly those samples whose probe succeeded with a
strictly positive bitrate. -/
def validBitrateList (probes : ℕ → Option ProbeStats) (l : List ℕ) : List ℚ :=
  l.filterMap fun i =>
    match probes i with
    | some st => if 0 < st.bitrate then some st.bitrate else none
    | none => none

/-- The sizes of exactly those samples whose probe succeeded with a
strictly positive bitrate. -/
def validSizeList (probes : ℕ → Option ProbeStats) (l : List ℕ) : List ℚ :=
  l.filterMap fun i =>
    match probes i with
    | some st => if 0 < st.bitrate then some st.size else none
    | none => none

/-- The accumulation loop computes exactly the sums and the count over the
valid samples. -/
theorem sampleLoop_eq (probes : ℕ → Option ProbeStats) :
    ∀ (l : List ℕ) (tb ts : ℚ) (cnt : ℕ),
      sampleLoop probes l (tb, ts, cnt) =
        (tb + (validBitrateList probes l).sum,
         ts + (validSizeList probes l).sum,
         cnt + (validBitrateList probes l).length)
  | [], tb, ts, cnt => by
    simp [sampleLoop, validBitrateList, validSizeList]
  | i :: rest, tb, ts, cnt => by
    cases hp : probes i with
    | none =>
      simp only [sampleLoop, hp, validBitrateList, validSizeList,
        List.filterMap_cons]
      exact sampleLoop_eq probes rest tb ts cnt
    | some st =>
      by_cases hb : 0 < st.bitrate
      · simp only [sampleLoop, hp, if_pos hb, validBitrateList, validSizeList,
          List.filterMap_cons]
        rw [sampleLoop_eq probes rest (tb + st.bitrate) (ts + st.size)
          (cnt + 1)]
        simp only [validBitrateList, validSizeList, List.sum_cons,
          List.length_cons, Prod.mk.injEq]
        exact ⟨by ring, by ring, by omega⟩
      · simp only [sampleLoop, hp, if_neg hb, validBitrateList, validSizeList,
          List.filterMap_cons]
        exact sampleLoop_eq probes rest tb ts cnt

/-- C5: with valid options, `sample()` raises if and only if zero samples
produced a valid (strictly positive) probed bitrate; otherwise it returns
the average over exactly the valid samples (every non-positive-bitrate or
failed probe is excluded from the aggregate without aborting the pass),
and the estimated size derived from that average. -/
theorem sample_raises_iff (meta : Metadata) (o : SampleOptions)
    (probes : ℕ → Option ProbeStats)
    (hopts : ¬(o.samples ≤ 0 ∨ o.sampleLength ≤ 0 ∨ o.quality ≤ 0 ∨
      51 < o.quality)) :
    (Handbrake.sample meta o probes = none ↔
      validBitrateList probes (List.range o.samples.toNat) = []) ∧
    (∀ r, Handbrake.sample meta o probes = some r →
      r.avgBitrate =
        round2 ((validBitrateList probes (List.range o.samples.toNat)).sum /
          ((validBitrateList probes (List.range o.samples.toNat)).length : ℚ)) ∧
      r.estimatedSize = round2 (r.avgBitrate * meta.length / 8)) := by
  simp only [Handbrake.sample, if_neg hopts,
    sampleLoop_eq probes (List.range o.samples.toNat) 0 0 0, zero_add]
  constructor
  · split_ifs with hz
    · simp only [true_iff]
      exact List.length_eq_zero.mp hz
    · simp only [false_iff]
      intro hnil
      exact hz (by rw [hnil]; rfl)
  · intro r
    split_ifs with hz
    · intro h; exact absurd h (by simp)
    · intro h
      have hr := (Option.some_inj.mp h).symm
      rw [hr]
      exact ⟨rfl, rfl⟩

/-- Witness for C5: two probes, one valid (2 Mb/s) and one with zero
bitrate, on a 100-second source. -/
theorem sample_raises_iff_witness :
    (Handbrake.sample ⟨[], [], 5, 100, 500⟩ ⟨20, 2, 7⟩
        (fun i => if i = 0 then some ⟨2, 10⟩ else some ⟨0, 5⟩) = none ↔
      validBitrateList
        (fun i => if i = 0 then some ⟨2, 10⟩ else some ⟨0, 5⟩)
        (List.range (2 : ℤ).toNat) = []) ∧
    (∀ r, Handbrake.sample ⟨[], [], 5, 100, 500⟩ ⟨20, 2, 7⟩
        (fun i => if i = 0 then some ⟨2, 10⟩ else some ⟨0, 5⟩) = some r →
      r.avgBitrate =
        round2 ((validBitrateList
          (fun i => if i = 0 then some ⟨2, 10⟩ else some ⟨0, 5⟩)
          (List.range (2 : ℤ).toNat)).sum /
          ((validBitrateList
            (fun i => if i = 0 then some ⟨2, 10⟩ else some ⟨0, 5⟩)
            (List.range (2 : ℤ).toNat)).length : ℚ)) ∧
      r.estimatedSize = round2 (r.avgBitrate * 100 / 8)) :=
  sample_raises_iff ⟨[], [], 5, 100, 500⟩ ⟨20, 2, 7⟩
    (fun i => if i = 0 then some ⟨2, 10⟩ else some ⟨0, 5⟩) (by norm_num)

/-! ### C6 — generated sample windows

The claim fails on the code in two ways, both caused by edge behaviour of
the start-offset construction `start == 0 ? 1 : start`:

* duration 10 s, 2 samples, sample length 5 s: `timeFrames = 5`, effective
  length `min 5 5 = 5`, starts `1` (nudged from 0) and `5`; the windows
  `[1, 6)` and `[5, 10)` overlap on `[5, 6)`;
* duration 1 s, 1 sample: the single start offset is nudged to `1`, which
  is not strictly below the duration.
-/

/-- C6 counterexample: concrete sampler inputs on which the start offsets
are not all strictly inside `[1, duration)` or the windows with effective
length `min(sampleLength, ⌊duration / count⌋)` overlap. -/
theorem sampling_windows_counterexample :
    (timeFrames 10 2 = 5 ∧ sampleStart 5 0 = 1 ∧ sampleStart 5 1 = 5 ∧
      ¬(sampleStart 5 0 + min (5 : ℚ) ((5 : ℤ) : ℚ) ≤ sampleStart 5 1)) ∧
    (timeFrames 1 1 = 1 ∧ ¬(sampleStart 1 0 < (1 : ℚ))) := by
  refine ⟨⟨?_, ?_, ?_, ?_⟩, ?_, ?_⟩
  · show Rat.floor ((10 : ℚ) / ((2 : ℤ) : ℚ)) = 5
    rw [ratFloor_eq]
    norm_num
  · norm_num [sampleStart]
  · norm_num [sampleStart]
  · norm_num [sampleStart]
  · show Rat.floor ((1 : ℚ) / ((1 : ℤ) : ℚ)) = 1
    rw [ratFloor_eq]
    norm_num
  · norm_num [sampleStart]

/-- C6 (amended): for any duration strictly above 1 second, positive
sample count and positive sample length, all generated start offsets lie
in `[1, duration)`; with the effective sample length
`eff = min(sampleLength, ⌊duration / count⌋)` any two distinct windows
other than the first two are non-overlapping, the first window overlaps
the second by at most 1 second (the nudge of the first start from 0 to 1),
and for an integer sample length `eff` is exactly the code's effective
sample length. -/
theorem sampling_windows_amended (len sl : ℚ) (n : ℕ) (tf : ℤ) (eff : ℚ)
    (hlen : 1 < len) (hsl : 0 < sl) (hn : 0 < n)
    (htf : tf = timeFrames len (n : ℤ))
    (heff : eff = min sl (tf : ℚ)) :
    (∀ i, i < n → 1 ≤ sampleStart tf i ∧ sampleStart tf i < len) ∧
    (∀ i j, i < j → j < n → ¬(i = 0 ∧ j = 1) →
      sampleStart tf i + eff ≤ sampleStart tf j) ∧
    (2 ≤ n → sampleStart tf 0 + eff ≤ sampleStart tf 1 + 1) ∧
    (∀ k : ℤ, sl = (k : ℚ) →
      effectiveSampleLength ⟨20, (n : ℤ), sl⟩ len = eff) := by
  have hq : (0 : ℚ) < len / (n : ℚ) := by
    apply div_pos (by linarith)
    exact_mod_cast hn
  have htf0 : (0 : ℤ) ≤ tf := by
    rw [htf]
    show (0 : ℤ) ≤ Rat.floor (len / ((n : ℤ) : ℚ))
    rw [ratFloor_eq]
    apply Int.floor_nonneg.mpr
    push_cast
    exact hq.le
  have htfle : (tf : ℚ) ≤ len / (n : ℚ) := by
    rw [htf]
    show ((Rat.floor (len / ((n : ℤ) : ℚ)) : ℤ) : ℚ) ≤ len / (n : ℚ)
    rw [ratFloor_eq]
    push_cast
    exact Int.floor_le _
  refine ⟨?_, ?_, ?_, ?_⟩
  · -- start offsets in [1, len)
    intro i hi
    unfold sampleStart
    split_ifs with h0
    · exact ⟨le_refl 1, hlen⟩
    · have hipos : (1 : ℚ) ≤ (i : ℚ) := by
        rcases Nat.eq_zero_or_pos i with rfl | hip
        · simp at h0
        · exact_mod_cast hip
      have htfpos : (1 : ℚ) ≤ (tf : ℚ) := by
        rcases eq_or_lt_of_le htf0 with he | hlt
        · rw [← he] at h0; simp at h0
        · exact_mod_cast hlt
      constructor
      · nlinarith
      · -- i * tf ≤ (n - 1) * (len / n) = len - len / n < len
        have hin : (i : ℚ) ≤ (n : ℚ) - 1 := by
          have : i + 1 ≤ n := hi
          have := (Nat.cast_le (α := ℚ)).mpr this
          push_cast at this
          linarith
        have h1 : (i : ℚ) * (tf : ℚ) ≤ (i : ℚ) * (len / n) :=
          mul_le_mul_of_nonneg_left htfle (by linarith)
        have h2 : (i : ℚ) * (len / n) ≤ ((n : ℚ) - 1) * (len / n) :=
          mul_le_mul_of_nonneg_right hin hq.le
        have h3 : ((n : ℚ) - 1) * (len / n) = len - len / n := by
          field_simp
          ring
        linarith
  · -- pairwise non-overlap away from the nudged first pair
    intro i j hij hjn hne
    have heffle : eff ≤ (tf : ℚ) := heff ▸ min_le_right _ _
    rcases eq_or_lt_of_le htf0 with he | htfpos
    · -- timeFrames = 0: every start is the nudge 1 and eff = 0
      have heff0 : eff = 0 := by
        rw [heff, ← he]
        exact min_eq_right (by exact_mod_cast hsl.le)
      have hsi : sampleStart tf i = 1 := by
        unfold sampleStart
        rw [← he]
        simp
      have hsj : sampleStart tf j = 1 := by
        unfold sampleStart
        rw [← he]
        simp
      rw [hsi, hsj, heff0]
      norm_num
    · have htf1 : (1 : ℚ) ≤ (tf : ℚ) := by exact_mod_cast htfpos
      have hsj : sampleStart tf j = (j : ℚ) * (tf : ℚ) := by
        unfold sampleStart
        rw [if_neg]
        intro hz
        rcases mul_eq_zero.mp hz with hz | hz
        · have : j = 0 := by exact_mod_cast hz
          omega
        · linarith
      rcases Nat.eq_zero_or_pos i with rfl | hip
      · -- first window against window j ≥ 2
        have hj2 : 2 ≤ j := by
          rcases Nat.lt_or_ge j 2 with hj | hj
          · interval_cases j
            exact absurd ⟨rfl, rfl⟩ hne
          · exact hj
        have hs0 : sampleStart tf 0 = 1 := by
          unfold sampleStart
          simp
        rw [hs0, hsj]
        have : (2 : ℚ) ≤ (j : ℚ) := by exact_mod_cast hj2
        nlinarith
      · have hsi : sampleStart tf i = (i : ℚ) * (tf : ℚ) := by
          unfold sampleStart
          rw [if_neg]
          intro hz
          rcases mul_eq_zero.mp hz with hz | hz
          · have : i = 0 := by exact_mod_cast hz
            omega
          · linarith
        rw [hsi, hsj]
        have hij1 : (i : ℚ) + 1 ≤ (j : ℚ) := by exact_mod_cast hij
        nlinarith
  · -- the first two windows overlap by at most 1 second
    intro _
    have heffle : eff ≤ (tf : ℚ) := heff ▸ min_le_right _ _
    have hs0 : sampleStart tf 0 = 1 := by
      unfold sampleStart
      simp
    rcases eq_or_lt_of_le htf0 with he | htfpos
    · have hs1 : sampleStart tf 1 = 1 := by
        unfold sampleStart
        rw [← he]
        simp
      rw [hs0, hs1]
      have h0 : (tf : ℚ) = 0 := by exact_mod_cast he.symm
      linarith
    · have htf1 : (1 : ℚ) ≤ (tf : ℚ) := by exact_mod_cast htfpos
      have hs1 : sampleStart tf 1 = (tf : ℚ) := by
        unfold sampleStart
        simp only [Nat.cast_one, one_mul]
        rw [if_neg (by intro hz; linarith)]
      rw [hs0, hs1]
      linarith
  · -- for integer sample lengths the code's effective length is the min
    intro k hk
    unfold effectiveSampleLength
    have hsamples : (((n : ℤ) : ℚ)) = (n : ℚ) := by push_cast; ring
    split_ifs with hgt
    · -- sl * n > len: the code takes the floor, which is also the min
      have : (tf : ℚ) ≤ sl := by
        have hnq : (0 : ℚ) < (n : ℚ) := by exact_mod_cast hn
        have : len / (n : ℚ) < sl := by
          rw [div_lt_iff₀ hnq]
          rw [hsamples] at hgt
          linarith [hgt]
        linarith [htfle]
      rw [heff, min_eq_right this, htf]
      rfl
    · -- sl * n ≤ len: the integer sl is at most the floor
      have hnq : (0 : ℚ) < (n : ℚ) := by exact_mod_cast hn
      have hsln : sl ≤ len / (n : ℚ) := by
        rw [le_div_iff₀ hnq]
        rw [hsamples] at hgt
        linarith [not_lt.mp hgt]
      have hkfl : sl ≤ (tf : ℚ) := by
        rw [hk] at hsln ⊢
        rw [htf]
        show (k : ℚ) ≤ ((Rat.floor (len / ((n : ℤ) : ℚ)) : ℤ) : ℚ)
        rw [ratFloor_eq]
        have : k ≤ ⌊len / ((n : ℤ) : ℚ)⌋ := by
          apply Int.le_floor.mpr
          push_cast
          exact hsln
        exact_mod_cast this
      rw [heff, min_eq_left hkfl]

/-- Witness for C6 (amended): duration 100 s, 10 samples of 7 s,
`timeFrames = 10`, effective length 7. -/
theorem sampling_windows_amended_witness :
    (1 ≤ sampleStart 10 3 ∧ sampleStart 10 3 < 100) ∧
    sampleStart 10 2 + min (7 : ℚ) ((10 : ℤ) : ℚ) ≤ sampleStart 10 5 :=
  ⟨(sampling_windows_amended 100 7 10 10 (min (7 : ℚ) ((10 : ℤ) : ℚ))
      (by norm_num) (by norm_num) (by norm_num)
      (by show (10 : ℤ) = Rat.floor ((100 : ℚ) / ((10 : ℤ) : ℚ))
          rw [ratFloor_eq]; norm_num)
      rfl).1 3 (by norm_num),
   (sampling_windows_amended 100 7 10 10 (min (7 : ℚ) ((10 : ℤ) : ℚ))
      (by norm_num) (by norm_num) (by norm_num)
      (by show (10 : ℤ) = Rat.floor ((100 : ℚ) / ((10 : ℤ) : ℚ))
          rw [ratFloor_eq]; norm_num)
      rfl).2.1 2 5 (by norm_num) (by norm_num) (by norm_num)⟩

/-! ### Encoder strategy chain (utils/handbrake.ts `runCommand`) -/

/-- One entry of the `strategies` array of `runCommand`. -/
structure EncStrategy where
  sname : List Char
  encoder : List Char
  flags : List Char
  enabled : Bool
deriving DecidableEq, Repr

/-- The fixed, ordered strategy chain: hardware-accelerated encode
(enabled iff `HARDWARE_ACCEL_TYPE != ""`), the same encoder without the
hardware-decode flag, then the software encoder. -/
def hbStrategies (hwAccelType hardwareEncoder softwareEncoder : List Char) :
    List EncStrategy :=
  [ { sname := String.toList "HW Accel", encoder := hardwareEncoder,
      flags := if hwAccelType.isEmpty then []
               else String.toList "--enable-hw-decoding " ++ hwAccelType,
      enabled := !hwAccelType.isEmpty },
    { sname := String.toList "Semi-Software Fallback",
      encoder := hardwareEncoder, flags := [], enabled := true },
    { sname := String.toList "Full Software Fallback",
      encoder := softwareEncoder, flags := [], enabled := true } ]

/-- The encode attempt `runCommand` over the strategy chain: each enabled strategy is tried in
order; `succeeds i` is the exit status of the `i`-th spawn; the first exit
code 0 returns success, and exhausting the chain reports failure (the
caught `lastError` — the source returns without throwing). -/
def runCommandOk : List EncStrategy → (ℕ → Bool) → ℕ → Bool
  | [], _, _ => false
  | strat :: rest, succ, i =>
    if strat.enabled then
      (if succ i then true else runCommandOk rest succ (i + 1))
    else runCommandOk rest succ (i + 1)

/-- The final `Handbrake.transcode(quality)` at the file-name level: runs the chain
on the full-length range and returns, in order, the source base name
(untouched — the final variant never deletes or renames the source), the
output base name with the processed marker, and the chain's outcome. -/
def transcodeRun (videoBase : List Char) (strats : List EncStrategy)
    (succ : ℕ → Bool) : List Char × List Char × Bool :=
  (videoBase, videoBase ++ HBPROCESSED, runCommandOk strats succ 0)

theorem runCommandOk_false (succ : ℕ → Bool) (h : ∀ i, succ i = false) :
    ∀ (l : List EncStrategy) (i : ℕ), runCommandOk l succ i = false
  | [], _ => rfl
  | strat :: rest, i => by
    have hrec := runCommandOk_false succ h rest (i + 1)
    simp only [runCommandOk, h i]
    split_ifs with he hs
    · exact absurd hs (by simp)
    · exact hrec
    · exact hrec

/-! ### Batch orchestrator (transcode-videos.ts `transcodeVideos`) -/

/-- An input file as the orchestrator sees it: resolved parent directory,
base name, extension, and the probed metadata (`none` when
`getDetails()` fails). -/
structure VFile where
  dir : List Char
  base : List Char
  ext : List Char
  details : Option Metadata
deriving DecidableEq, Repr

/-- The skip guards of the orchestrator loop: allow-listed extension,
obtainable metadata, codec not in the skip list (lower-cased), and no
processed marker on the base name. -/
def eligible (f : VFile) : Bool :=
  ALLOW_TRANSCODE.contains f.ext &&
    match f.details with
    | none => false
    | some md =>
      !(SKIP_TRANSCODE_CODECS.contains (md.codec.map Char.toLower)) &&
        !(HBPROCESSED.isSuffixOf f.base)

/-- Orchestrator loop state: the tracked `currentDirectory`, the current
quality `q`, plus traces of the directories for which the quality search
ran, the `(file name, quality, encode outcome)` of every transcode, and
the number of eligible files processed. -/
structure OrchState where
  currentDirectory : List Char
  q : ℚ
  searchedDirs : List (List Char)
  transcoded : List (List Char × ℚ × Bool)
  visited : ℕ
deriving DecidableEq, Repr

/-- Source: `let currentDirectory = ""; let q = DEFAULT_Q;`. -/
def initOrchState : OrchState := ⟨[], DEFAULT_Q, [], [], 0⟩

/-- One iteration of the orchestrator loop: skip ineligible files; on a
directory change, run the quality search (`search f`) and remember the
directory; transcode with the current `q`, recording the original file
name and the encode outcome (a failed transcode is caught and logged; it
does not stop the loop). -/
def stepFile (search : VFile → ℚ) (succ : VFile → ℕ → Bool)
    (strats : List EncStrategy) (s : OrchState) (f : VFile) : OrchState :=
  if eligible f then
    let s1 :=
      if s.currentDirectory ≠ f.dir then
        { s with visited := s.visited + 1, currentDirectory := f.dir,
                 q := search f, searchedDirs := s.searchedDirs ++ [f.dir] }
      else { s with visited := s.visited + 1 }
    { s1 with transcoded := s1.transcoded ++
        [(f.base ++ f.ext, s1.q, runCommandOk strats (succ f) 0)] }
  else s

/-- The batch loop `transcodeVideos`: fold the per-file step over the directory listing. -/
def transcodeVideos (search : VFile → ℚ) (succ : VFile → ℕ → Bool)
    (strats : List EncStrategy) : List VFile → OrchState → OrchState
  | [], s => s
  | f :: rest, s =>
    transcodeVideos search succ strats rest (stepFile search succ strats s f)

/-- JS `String.prototype.replace` with a plain-string pattern: replace the
first occurrence only. -/
def replaceFirstSeq (pat rep : List Char) : List Char → List Char
  | [] => []
  | c :: rest =>
    if pat.isPrefixOf (c :: rest) then rep ++ (c :: rest).drop pat.length
    else c :: replaceFirstSeq pat rep rest

/-- One file of the rename pass of `fileCleanup`: a file whose base name
ends with the processed marker is renamed by
`name.replace("_HBPROCESSED.mp4", ".mp4")`; any other file is left
untouched. -/
def renameStep (f : VFile) : List Char :=
  if HBPROCESSED.isSuffixOf f.base then
    replaceFirstSeq (String.toList "_HBPROCESSED.mp4") (String.toList ".mp4")
      (f.base ++ f.ext)
  else f.base ++ f.ext

/-- Evaluation of `stepFile` entering a new directory: search runs and the directory is
recorded. -/
theorem stepFile_new_dir (search : VFile → ℚ) (succ : VFile → ℕ → Bool)
    (strats : List EncStrategy) (s : OrchState) (f : VFile)
    (he : eligible f = true) (hne : s.currentDirectory ≠ f.dir) :
    stepFile search succ strats s f =
      { currentDirectory := f.dir, q := search f,
        searchedDirs := s.searchedDirs ++ [f.dir],
        transcoded := s.transcoded ++
          [(f.base ++ f.ext, search f, runCommandOk strats (succ f) 0)],
        visited := s.visited + 1 } := by
  unfold stepFile
  rw [if_pos he, if_pos hne]

/-- Evaluation of `stepFile` on the tracked directory: no search, `q` reused unmodified. -/
theorem stepFile_same_dir (search : VFile → ℚ) (succ : VFile → ℕ → Bool)
    (strats : List EncStrategy) (s : OrchState) (f : VFile)
    (he : eligible f = true) (hsame : s.currentDirectory = f.dir) :
    stepFile search succ strats s f =
      { s with
        transcoded := s.transcoded ++
          [(f.base ++ f.ext, s.q, runCommandOk strats (succ f) 0)]
        visited := s.visited + 1 } := by
  unfold stepFile
  rw [if_pos he, if_neg (not_not_intro hsame)]

theorem stepFile_visited (search : VFile → ℚ) (succ : VFile → ℕ → Bool)
    (strats : List EncStrategy) (s : OrchState) (f : VFile) :
    (stepFile search succ strats s f).visited =
      s.visited + (if eligible f then 1 else 0) := by
  unfold stepFile
  split_ifs with he hd
  · rfl
  · rfl
  · rfl

theorem transcodeVideos_visited (search : VFile → ℚ) (succ : VFile → ℕ → Bool)
    (strats : List EncStrategy) :
    ∀ (files : List VFile) (s : OrchState),
      (transcodeVideos search succ strats files s).visited =
        s.visited + (files.filter (fun g => eligible g)).length
  | [], s => by simp [transcodeVideos]
  | f :: rest, s => by
    simp only [transcodeVideos, List.filter_cons]
    rw [transcodeVideos_visited search succ strats rest _, stepFile_visited]
    split_ifs with he
    · simp only [List.length_cons]
      omega
    · simp

/-! ### C8 — total final-transcode failure skips the file, batch goes on -/

/-- C8: when every encoder strategy fails for the full-length final
transcode of a file, the strategy chain reports failure, the final
`transcode` leaves the source base name untouched, the rename pass leaves
a file without the processed marker exactly as it is (the file is skipped),
and the orchestrator still visits every eligible file of the batch
whatever the per-file encode outcomes are. -/
theorem final_transcode_failure (hwAccelType hwEnc swEnc : List Char)
    (succ0 : ℕ → Bool) (f : VFile)
    (hfail : ∀ i, succ0 i = false)
    (hmark : HBPROCESSED.isSuffixOf f.base = false) :
    (transcodeRun f.base (hbStrategies hwAccelType hwEnc swEnc) succ0).2.2
      = false ∧
    (transcodeRun f.base (hbStrategies hwAccelType hwEnc swEnc) succ0).1
      = f.base ∧
    renameStep f = f.base ++ f.ext ∧
    (∀ (search : VFile → ℚ) (succ : VFile → ℕ → Bool)
        (strats : List EncStrategy) (files : List VFile) (s : OrchState),
      (transcodeVideos search succ strats files s).visited =
        s.visited + (files.filter (fun g => eligible g)).length) := by
  refine ⟨?_, rfl, ?_, ?_⟩
  · exact runCommandOk_false succ0 hfail _ 0
  · unfold renameStep
    rw [if_neg (by rw [hmark]; exact Bool.false_ne_true)]
  · intro search succ strats files s
    exact transcodeVideos_visited search succ strats files s

/-- Witness for C8: a concrete `.mkv` source whose three strategy attempts
all fail. -/
theorem final_transcode_failure_witness :
    (transcodeRun (String.toList "movie")
        (hbStrategies (String.toList "vcn") (String.toList "vce_h265")
          (String.toList "x265")) (fun _ => false)).2.2 = false ∧
    (transcodeRun (String.toList "movie")
        (hbStrategies (String.toList "vcn") (String.toList "vce_h265")
          (String.toList "x265")) (fun _ => false)).1
      = String.toList "movie" ∧
    renameStep ⟨String.toList "/tv/s1", String.toList "movie",
        String.toList ".mkv", some ⟨[], String.toList "h264", 5, 100, 500⟩⟩
      = String.toList "movie" ++ String.toList ".mkv" ∧
    (∀ (search : VFile → ℚ) (succ : VFile → ℕ → Bool)
        (strats : List EncStrategy) (files : List VFile) (s : OrchState),
      (transcodeVideos search succ strats files s).visited =
        s.visited + (files.filter (fun g => eligible g)).length) :=
  final_transcode_failure (String.toList "vcn") (String.toList "vce_h265")
    (String.toList "x265") (fun _ => false)
    ⟨String.toList "/tv/s1", String.toList "movie", String.toList ".mkv",
      some ⟨[], String.toList "h264", 5, 100, 500⟩⟩
    (fun _ => rfl) (by decide)

/-! ### C9 — one quality search per directory, reused unmodified -/

/-- C9: for two consecutive eligible files with the same resolved parent
directory, entered with a different tracked directory, the orchestrator
invokes the quality search exactly once (for the first file), and the
quality used to transcode the second file is the unmodified value computed
for the first. -/
theorem directory_reuse (search : VFile → ℚ) (succ : VFile → ℕ → Bool)
    (strats : List EncStrategy) (s : OrchState) (f1 f2 : VFile)
    (h1 : eligible f1 = true) (h2 : eligible f2 = true)
    (hdir : f1.dir = f2.dir) (hnew : s.currentDirectory ≠ f1.dir) :
    (transcodeVideos search succ strats [f1, f2] s).searchedDirs
      = s.searchedDirs ++ [f1.dir] ∧
    (transcodeVideos search succ strats [f1, f2] s).q = search f1 ∧
    (transcodeVideos search succ strats [f1, f2] s).transcoded
      = s.transcoded ++
        [(f1.base ++ f1.ext, search f1, runCommandOk strats (succ f1) 0),
         (f2.base ++ f2.ext, search f1, runCommandOk strats (succ f2) 0)] := by
  simp only [transcodeVideos]
  rw [stepFile_new_dir search succ strats s f1 h1 hnew]
  rw [stepFile_same_dir search succ strats _ f2 h2 hdir]
  refine ⟨rfl, rfl, ?_⟩
  simp [List.append_assoc]

/-- Witness for C9: two concrete episodes of the same directory. -/
theorem directory_reuse_witness :
    (transcodeVideos (fun _ => 18) (fun _ _ => true) []
        [⟨String.toList "/tv/s1", String.toList "e1", String.toList ".mkv",
            some ⟨[], String.toList "h264", 5, 100, 500⟩⟩,
         ⟨String.toList "/tv/s1", String.toList "e2", String.toList ".mkv",
            some ⟨[], String.toList "h264", 5, 100, 480⟩⟩]
        initOrchState).searchedDirs
      = initOrchState.searchedDirs ++ [String.toList "/tv/s1"] ∧
    (transcodeVideos (fun _ => 18) (fun _ _ => true) []
        [⟨String.toList "/tv/s1", String.toList "e1", String.toList ".mkv",
            some ⟨[], String.toList "h264", 5, 100, 500⟩⟩,
         ⟨String.toList "/tv/s1", String.toList "e2", String.toList ".mkv",
            some ⟨[], String.toList "h264", 5, 100, 480⟩⟩]
        initOrchState).q = 18 ∧
    (transcodeVideos (fun _ => 18) (fun _ _ => true) []
        [⟨String.toList "/tv/s1", String.toList "e1", String.toList ".mkv",
            some ⟨[], String.toList "h264", 5, 100, 500⟩⟩,
         ⟨String.toList "/tv/s1", String.toList "e2", String.toList ".mkv",
            some ⟨[], String.toList "h264", 5, 100, 480⟩⟩]
        initOrchState).transcoded
      = initOrchState.transcoded ++
        [(String.toList "e1" ++ String.toList ".mkv", 18,
            runCommandOk [] (fun _ => true) 0),
         (String.toList "e2" ++ String.toList ".mkv", 18,
            runCommandOk [] (fun _ => true) 0)] :=
  directory_reuse (fun _ => 18) (fun _ _ => true) [] initOrchState
    ⟨String.toList "/tv/s1", String.toList "e1", String.toList ".mkv",
      some ⟨[], String.toList "h264", 5, 100, 500⟩⟩
    ⟨String.toList "/tv/s1", String.toList "e2", String.toList ".mkv",
      some ⟨[], String.toList "h264", 5, 100, 480⟩⟩
    (by decide) (by decide) rfl (by decide)

end TranscoderWin
